import Mathlib

/-!
Verification development for the `nlp_from_dsy` repository.

The repository consists of Jupyter notebooks (`ber-ner-2.ipynb`,
`albert-ner.ipynb` and an unnamed ALBERT notebook) that prepare NER
training data and wrap library layers (BERT/ALBERT encoders, LSTM, GRU,
MultiheadAttention, CRF) into thin model classes.  This file gives a
shallow embedding of the authored code:

* a text file is modelled as the list of its lines (each line without a
  trailing newline);
* Python `str.strip()` is `pyStrip`, Python `s.split(" ")` is
  `pySplitSpace` (both agree with the Python semantics on the
  separator-given form of `split`: splitting the empty string yields a
  single empty field);
* a Python `dict` built by `{data : 1+i for i,data in enumerate(xs)}` is
  the association list `mkDict xs`; a lookup `d[k]` is `dictLookup`,
  which is `none` exactly when Python would raise `KeyError`;
* a Python `set` is modelled as a duplicate-free list: `List.dedup` for
  `set(vocab)` in `readVocab`, and an insertion-ordered accumulation
  (`addToSet`) for the `label_list` set grown by `handle`.  The claims
  proved below depend only on membership and cardinality of these sets,
  never on a particular enumeration order, so a deterministic
  representative order is sound;
* fallible Python code (lookups that can raise `KeyError`, the
  `linesplit[1]` index that can raise `IndexError`) returns `Option`.

Tensor-level code (the model classes and the `SelfAttention` wrapper) is
embedded further below with tensors as nested lists of rationals and the
library layers (`BertModel`, `AlbertModel`, `nn.LSTM`, `nn.GRU`,
`nn.MultiheadAttention`, `CRF`) as abstract function-valued fields, since
their internals are third-party code outside this repository.
-/

/-- Remove leading and trailing whitespace from a character list. -/
def pyStripChars (l : List Char) : List Char :=
  ((l.dropWhile Char.isWhitespace).reverse.dropWhile Char.isWhitespace).reverse

/-- Python `str.strip()`: remove leading and trailing whitespace.
Implemented over the character list of the string so that it reduces in
the kernel (the library `String.trim` does not). -/
def pyStrip (s : String) : String := ⟨pyStripChars s.data⟩

/-- Split a character list at every single space character, keeping
empty fields; the result is never the empty list. -/
def pySplitSpaceChars : List Char → List (List Char)
  | [] => [[]]
  | c :: cs =>
    if c = ' ' then [] :: pySplitSpaceChars cs
    else
      match pySplitSpaceChars cs with
      | [] => [[c]]
      | l :: ls => (c :: l) :: ls

/-- Python `s.split(" ")`: split on every single space, keeping empty
fields (so splitting the empty string yields one empty field). -/
def pySplitSpace (s : String) : List String :=
  (pySplitSpaceChars s.data).map (fun l => ⟨l⟩)

/-- `line.strip().split(" ")[0]` — the first whitespace-delimited field
of a line.  `pySplitSpace` never returns `[]`, so the default is never
used. -/
def firstField (line : String) : String :=
  (pySplitSpace (pyStrip line)).headD ""

/-- `max_seq_length = 202` from the constants cell of the notebooks. -/
def max_seq_length : Nat := 202

/-- Sequential effectful map in the `Option` monad: the loop
`for j in i: out.append(f(j))` where each `f` call can raise.  The first
failure aborts the whole computation, as an uncaught Python exception
would. -/
def mapOption (f : α → Option β) : List α → Option (List β)
  | [] => some []
  | x :: xs =>
    match f x with
    | none => none
    | some y =>
      match mapOption f xs with
      | none => none
      | some ys => some (y :: ys)

/-- Dictionary lookup `d[k]` on an association list; `none` models an
uncaught `KeyError`. -/
def dictLookup (d : List (String × Nat)) (k : String) : Option Nat :=
  (d.find? (fun p => p.1 == k)).map Prod.snd

/-- `{data : 1+i for i,data in enumerate(xs)}` starting the enumeration
counter at `i`. -/
def mkDictFrom (i : Nat) : List String → List (String × Nat)
  | [] => []
  | x :: xs => (x, 1 + i) :: mkDictFrom (i + 1) xs

/-- `{data : 1+i for i,data in enumerate(xs)}`. -/
def mkDict (xs : List String) : List (String × Nat) := mkDictFrom 0 xs

/-- `{1+i : data for i,data in enumerate(xs)}`. -/
def mkDictRevFrom (i : Nat) : List String → List (Nat × String)
  | [] => []
  | x :: xs => (1 + i, x) :: mkDictRevFrom (i + 1) xs

/-- `{1+i : data for i,data in enumerate(xs)}`. -/
def mkDictRev (xs : List String) : List (Nat × String) := mkDictRevFrom 0 xs

/-- Result tuple of `readVocab`. -/
structure VocabResult where
  vocab : List String
  vocab2id : List (String × Nat)
  id2vocab : List (Nat × String)
  size : Nat
deriving DecidableEq

/-- The list accumulated by `readVocab` before `set(...)`: every stripped
line of `vocab.txt` followed by the first field of every non-empty
stripped line of `train.txt`. -/
def collectVocab (vocabLines trainLines : List String) : List String :=
  vocabLines.map pyStrip ++
    (trainLines.filter (fun l => pyStrip l != "")).map firstField

/-- `readVocab` from the notebooks.  The two open files are modelled by
their line lists (`vocabLines` for `vocab.txt`, `trainLines` for
`data/train.txt`); `set(vocab)` is `List.dedup`. -/
def readVocab (vocabLines trainLines : List String) : VocabResult :=
  let vocab := (collectVocab vocabLines trainLines).dedup
  { vocab := vocab
    vocab2id := mkDict vocab
    id2vocab := mkDictRev vocab
    size := vocab.length }

/-- The mutable locals of the line-reading loop of `handle`. -/
structure ParseState where
  words : List (List String)
  labels : List (List String)
  label_list : List String
  word : List String
  label : List String
deriving DecidableEq

/-- Adding an element to the `label_list` set, keeping insertion order. -/
def addToSet (s : List String) (x : String) : List String :=
  if x ∈ s then s else s ++ [x]

/-- State before the loop of `handle`: empty accumulators and
`label_list = {"[CLS]", "[SEP]"}`. -/
def initParseState : ParseState :=
  { words := [], labels := [], label_list := ["[CLS]", "[SEP]"]
    word := [], label := [] }

/-- The `for index,line in enumerate(fp)` loop of `handle`.  A blank
(after `strip`) line appends the accumulated sentence; a non-empty line
appends its first field to `word` and its second field to `label` and
`label_list` — `linesplit[1]` raises `IndexError` when the line has a
single field, modelled by `none`. -/
def parseLines : List String → ParseState → Option ParseState
  | [], st => some st
  | line :: rest, st =>
    if pyStrip line = "" then
      parseLines rest { st with
        words := st.words ++ [st.word]
        labels := st.labels ++ [st.label]
        word := []
        label := [] }
    else
      match (pySplitSpace (pyStrip line))[1]? with
      | none => none
      | some lab =>
        parseLines rest { st with
          word := st.word ++ [firstField line]
          label := st.label ++ [lab]
          label_list := addToSet st.label_list lab }

/-- `if len(input_id) > (max_seq_length - 2): input_id = input_id[:max_seq_length - 2]`. -/
def truncIds (ids : List Nat) : List Nat :=
  if ids.length > max_seq_length - 2 then ids.take (max_seq_length - 2) else ids

/-- `while len(input_id) < n: input_id.append(0)`. -/
def padTo (n : Nat) (ids : List Nat) : List Nat :=
  ids ++ List.replicate (n - ids.length) 0

/-- Encoding of one sentence in `handle`: map every token through the id
dictionary, truncate to `max_seq_length - 2`, insert the `[CLS]` id at
position 0, pad with zeros to `max_seq_length - 1`, append the `[SEP]`
id.  Each dictionary access can raise `KeyError`. -/
def encodeSeq (toId : String → Option Nat) (toks : List String) : Option (List Nat) :=
  match mapOption toId toks with
  | none => none
  | some ids =>
    match toId "[CLS]" with
    | none => none
    | some clsId =>
      match toId "[SEP]" with
      | none => none
      | some sepId =>
        some (padTo (max_seq_length - 1) (clsId :: truncIds ids) ++ [sepId])

/-- Result tuple of `handle`. -/
structure HandleResult where
  words : List (List String)
  labels : List (List String)
  label_list : List String
  label2id : List (String × Nat)
  id2label : List (Nat × String)
  label_size : Nat
  input_ids : List (List Nat)
  label_ids : List (List Nat)
deriving DecidableEq

/-- `handle` from the notebooks.  The token dictionary `vocab2id` is the
notebook-global built by `readVocab`; the input file is its line list. -/
def handle (vocab2id : List (String × Nat)) (fileLines : List String) :
    Option HandleResult :=
  match parseLines fileLines initParseState with
  | none => none
  | some st =>
    match mapOption (encodeSeq (dictLookup vocab2id)) st.words with
    | none => none
    | some input_ids =>
      match mapOption (encodeSeq (dictLookup (mkDict st.label_list))) st.labels with
      | none => none
      | some label_ids =>
        some { words := st.words, labels := st.labels
               label_list := st.label_list
               label2id := mkDict st.label_list
               id2label := mkDictRev st.label_list
               label_size := st.label_list.length
               input_ids := input_ids, label_ids := label_ids }

/-!
### The ALBERT notebooks

`albert-ner.ipynb` and the unnamed ALBERT notebook define their own
`readVocab` and `handle`; the cells are translated here as separate
definitions so that claim C10 can compare the two pipelines.
-/

/-- `readVocab` as defined in the ALBERT notebooks. -/
def readVocab_albert (vocabLines trainLines : List String) : VocabResult :=
  let vocab := (vocabLines.map pyStrip ++
    (trainLines.filter (fun l => pyStrip l != "")).map firstField).dedup
  { vocab := vocab
    vocab2id := mkDict vocab
    id2vocab := mkDictRev vocab
    size := vocab.length }

/-- The reading loop of `handle` as defined in the ALBERT notebooks. -/
def parseLines_albert : List String → ParseState → Option ParseState
  | [], st => some st
  | line :: rest, st =>
    if pyStrip line = "" then
      parseLines_albert rest { st with
        words := st.words ++ [st.word]
        labels := st.labels ++ [st.label]
        word := []
        label := [] }
    else
      match (pySplitSpace (pyStrip line))[1]? with
      | none => none
      | some lab =>
        parseLines_albert rest { st with
          word := st.word ++ [firstField line]
          label := st.label ++ [lab]
          label_list := addToSet st.label_list lab }

/-- The per-sentence encoding of `handle` as defined in the ALBERT
notebooks. -/
def encodeSeq_albert (toId : String → Option Nat) (toks : List String) :
    Option (List Nat) :=
  match mapOption toId toks with
  | none => none
  | some ids =>
    match toId "[CLS]" with
    | none => none
    | some clsId =>
      match toId "[SEP]" with
      | none => none
      | some sepId =>
        some (padTo (max_seq_length - 1) (clsId :: truncIds ids) ++ [sepId])

/-- `handle` as defined in the ALBERT notebooks. -/
def handle_albert (vocab2id : List (String × Nat)) (fileLines : List String) :
    Option HandleResult :=
  match parseLines_albert fileLines initParseState with
  | none => none
  | some st =>
    match mapOption (encodeSeq_albert (dictLookup vocab2id)) st.words with
    | none => none
    | some input_ids =>
      match mapOption (encodeSeq_albert (dictLookup (mkDict st.label_list))) st.labels with
      | none => none
      | some label_ids =>
        some { words := st.words, labels := st.labels
               label_list := st.label_list
               label2id := mkDict st.label_list
               id2label := mkDictRev st.label_list
               label_size := st.label_list.length
               input_ids := input_ids, label_ids := label_ids }

/-!
### Tensors, the SelfAttention wrapper and the model classes

Tensors are nested lists of rationals.  A 3-D tensor of shape `(L, N, E)`
is a list of `L` matrices.  `permute(1, 0, 2)` swaps the two outer axes,
which on this representation is `List.transpose`.  Library layers keep
their own learned weights, so each is modelled as an opaque function
field of the module structure; what the repository authors wrote — the
composition in `forward` — is embedded exactly.
-/

/-- A 3-D tensor: a list of matrices over `ℚ`. -/
abbrev Tensor3 := List (List (List ℚ))

/-- A batch of tag sequences, `(batch, seq)` of tag indices. -/
abbrev Tags := List (List Nat)

/-- A batch of token-id sequences fed to the encoder. -/
abbrev IdBatch := List (List Nat)

/-- The number of columns of a matrix (the length of its first row). -/
def matCols (A : List (List ℚ)) : Nat := (A.headD []).length

/-- Structural matrix transpose (column `j` collects entry `j` of every
row); used so that concrete matrix products reduce in the kernel. -/
def matTranspose (A : List (List ℚ)) : List (List ℚ) :=
  (List.range (matCols A)).map (fun j => A.map (fun row => row.getD j 0))

/-- 2-D matrix product. -/
def matMul (A B : List (List ℚ)) : List (List ℚ) :=
  A.map (fun row =>
    (matTranspose B).map (fun col => (List.zipWith (· * ·) row col).sum))

/-- Batched matrix product `W.matmul(x)` on `(L, N, N)` against `(L, N, E)`. -/
def matmul3 (W X : Tensor3) : Tensor3 := List.zipWith matMul W X

/-- `output.permute(1, 0, 2)`: swap the two outer axes. -/
def permute102 (t : Tensor3) : Tensor3 := t.transpose

/-- The library `CRF` layer: its learned transition parameters are folded
into the two opaque functions.  `value` is `self.crf(emissions, tags,
reduction="mean")`, `decode` is `self.crf.decode(emissions)`. -/
structure CRF where
  num_tags : Nat
  value : Tensor3 → Tags → ℚ
  decode : Tensor3 → List (List Nat)

/-- The `SelfAttention` wrapper class.  Its `__init__` stores the
embedding dimension and a library `nn.MultiheadAttention` submodule
(abstracted to a function over query, key and value, its learned weights
folded in).  The projection weights `W1`, `W2`, `W3` are *not* fields:
the source allocates them with `torch.empty` and re-samples them with
`nn.init.uniform_` inside every call of `forward`. -/
structure SelfAttention where
  embed_dim : Nat
  selfattention : Tensor3 → Tensor3 → Tensor3 → Tensor3

/-- One call of `SelfAttention.forward`.  The freshly sampled projection
weights `w1`, `w2`, `w3` are explicit arguments because the source draws
them inside the call (they are local variables, not module state); the
returned second component is the module state after the call, which the
source never mutates. -/
def SelfAttention.forward (m : SelfAttention) (x w1 w2 w3 : Tensor3) :
    Tensor3 × SelfAttention :=
  let query := matmul3 w1 x
  let key := matmul3 w2 x
  let value := matmul3 w3 x
  ((m.selfattention query key value), m)

/-- `BertCRFNer`: a `BertModel` (abstracted, weights folded in) and a
`CRF`. -/
structure BertCRFNer where
  bert : IdBatch → Tensor3
  crf : CRF

/-- `BertCRFNer.forward`. -/
def BertCRFNer.forward (m : BertCRFNer) (x : IdBatch) (tags : Option Tags) :
    List (List Nat) ⊕ ℚ :=
  let y := m.bert x
  match tags with
  | none => Sum.inl (m.crf.decode (permute102 y))
  | some t => Sum.inr (-(m.crf.value y t))

/-- `BertBiLSTMCRFNer`: `BertModel`, `nn.LSTM` and `CRF`. -/
structure BertBiLSTMCRFNer where
  bert : IdBatch → Tensor3
  bilstm : Tensor3 → Tensor3
  crf : CRF

/-- `BertBiLSTMCRFNer.forward`. -/
def BertBiLSTMCRFNer.forward (m : BertBiLSTMCRFNer) (x : IdBatch)
    (tags : Option Tags) : List (List Nat) ⊕ ℚ :=
  let y := m.bert x
  let output := m.bilstm y
  match tags with
  | none => Sum.inl (m.crf.decode (permute102 output))
  | some t => Sum.inr (-(m.crf.value output t))

/-- `BertBiGRUCRFNer`: `BertModel`, `nn.GRU` and `CRF`. -/
structure BertBiGRUCRFNer where
  bert : IdBatch → Tensor3
  bigru : Tensor3 → Tensor3
  crf : CRF

/-- `BertBiGRUCRFNer.forward`. -/
def BertBiGRUCRFNer.forward (m : BertBiGRUCRFNer) (x : IdBatch)
    (tags : Option Tags) : List (List Nat) ⊕ ℚ :=
  let y := m.bert x
  let output := m.bigru y
  match tags with
  | none => Sum.inl (m.crf.decode (permute102 output))
  | some t => Sum.inr (-(m.crf.value output t))

/-- `BertBiGRUSelfAttentionCRFNer`: `BertModel`, `nn.GRU`, the
`SelfAttention` wrapper and `CRF`.  Its `forward` threads the freshly
sampled projection weights of the wrapped `SelfAttention` call. -/
structure BertBiGRUSelfAttentionCRFNer where
  bert : IdBatch → Tensor3
  bigru : Tensor3 → Tensor3
  selfattention : SelfAttention
  crf : CRF

/-- `BertBiGRUSelfAttentionCRFNer.forward`. -/
def BertBiGRUSelfAttentionCRFNer.forward (m : BertBiGRUSelfAttentionCRFNer)
    (x : IdBatch) (w1 w2 w3 : Tensor3) (tags : Option Tags) :
    List (List Nat) ⊕ ℚ :=
  let y := m.bert x
  let output0 := m.bigru y
  let output := (m.selfattention.forward output0 w1 w2 w3).1
  match tags with
  | none => Sum.inl (m.crf.decode (permute102 output))
  | some t => Sum.inr (-(m.crf.value output t))

/-- `AlBertCRFNer`: an `AlbertModel` and a `CRF`. -/
structure AlBertCRFNer where
  albert : IdBatch → Tensor3
  crf : CRF

/-- `AlBertCRFNer.forward`. -/
def AlBertCRFNer.forward (m : AlBertCRFNer) (x : IdBatch) (tags : Option Tags) :
    List (List Nat) ⊕ ℚ :=
  let y := m.albert x
  match tags with
  | none => Sum.inl (m.crf.decode (permute102 y))
  | some t => Sum.inr (-(m.crf.value y t))

/-- `AlBertBiLSTMCRFNer`: `AlbertModel`, `nn.LSTM` and `CRF`. -/
structure AlBertBiLSTMCRFNer where
  albert : IdBatch → Tensor3
  bilstm : Tensor3 → Tensor3
  crf : CRF

/-- `AlBertBiLSTMCRFNer.forward`. -/
def AlBertBiLSTMCRFNer.forward (m : AlBertBiLSTMCRFNer) (x : IdBatch)
    (tags : Option Tags) : List (List Nat) ⊕ ℚ :=
  let y := m.albert x
  let output := m.bilstm y
  match tags with
  | none => Sum.inl (m.crf.decode (permute102 output))
  | some t => Sum.inr (-(m.crf.value output t))

/-- `AlBertBiGRUCRFNer`: `AlbertModel`, `nn.GRU` and `CRF`. -/
structure AlBertBiGRUCRFNer where
  albert : IdBatch → Tensor3
  bigru : Tensor3 → Tensor3
  crf : CRF

/-- `AlBertBiGRUCRFNer.forward`. -/
def AlBertBiGRUCRFNer.forward (m : AlBertBiGRUCRFNer) (x : IdBatch)
    (tags : Option Tags) : List (List Nat) ⊕ ℚ :=
  let y := m.albert x
  let output := m.bigru y
  match tags with
  | none => Sum.inl (m.crf.decode (permute102 output))
  | some t => Sum.inr (-(m.crf.value output t))

/-- `AlBertBiGRUSelfAttentionCRFNer`: `AlbertModel`, `nn.GRU`, the
`SelfAttention` wrapper and `CRF`.  Unlike every sibling class, its
`forward` in `albert-ner.ipynb` reads `y = self.albert(x)` with no tuple
unpacking, so `y` is the whole `(sequence_output, pooled_output)` pair of
the encoder; the `albert` field therefore returns that pair. -/
structure AlBertBiGRUSelfAttentionCRFNer where
  albert : IdBatch → Tensor3 × Tensor3
  bigru : Tensor3 → Tensor3
  selfattention : SelfAttention
  crf : CRF

/-- The library call `self.bigru(y)` on the tuple bound by
`y = self.albert(x)`: `nn.GRU` expects a tensor and raises `TypeError`
on a tuple argument, modelled by `none`. -/
def gruOnTuple (_gru : Tensor3 → Tensor3) (_y : Tensor3 × Tensor3) :
    Option Tensor3 := none

/-- `AlBertBiGRUSelfAttentionCRFNer.forward` as written in the notebook:
`y = self.albert(x)` (no unpacking), then `output,_ = self.bigru(y)` —
the GRU call raises for every input, so execution never reaches the
`SelfAttention` wrapper or the CRF branches below it. -/
def AlBertBiGRUSelfAttentionCRFNer.forward (m : AlBertBiGRUSelfAttentionCRFNer)
    (x : IdBatch) (w1 w2 w3 : Tensor3) (tags : Option Tags) :
    Option (List (List Nat) ⊕ ℚ) :=
  let y := m.albert x
  match gruOnTuple m.bigru y with
  | none => none
  | some output0 =>
    let output := (m.selfattention.forward output0 w1 w2 w3).1
    match tags with
    | none => some (Sum.inl (m.crf.decode (permute102 output)))
    | some t => some (Sum.inr (-(m.crf.value output t)))

/-- The second copy of `AlBertBiGRUSelfAttentionCRFNer` bundled in
`albert-ner.ipynb` (its second concatenated document), which unpacks the
encoder tuple with `y,_ = self.albert(x)` like every other class. -/
structure AlBertBiGRUSelfAttentionCRFNerV2 where
  albert : IdBatch → Tensor3
  bigru : Tensor3 → Tensor3
  selfattention : SelfAttention
  crf : CRF

/-- `forward` of the second, tuple-unpacking copy of
`AlBertBiGRUSelfAttentionCRFNer`. -/
def AlBertBiGRUSelfAttentionCRFNerV2.forward
    (m : AlBertBiGRUSelfAttentionCRFNerV2) (x : IdBatch)
    (w1 w2 w3 : Tensor3) (tags : Option Tags) : List (List Nat) ⊕ ℚ :=
  let y := m.albert x
  let output0 := m.bigru y
  let output := (m.selfattention.forward output0 w1 w2 w3).1
  match tags with
  | none => Sum.inl (m.crf.decode (permute102 output))
  | some t => Sum.inr (-(m.crf.value output t))

/-- `BertNerDataset`: stores the two tensors passed to `__init__`; each
tensor is modelled as its list of rows.  `getitem` models
`__getitem__`, whose row indexings raise `IndexError` when out of
range. -/
structure BertNerDataset where
  input_ids : List (List Nat)
  label_ids : List (List Nat)
deriving DecidableEq

/-- `__len__`: `len(self.input_ids)`. -/
def BertNerDataset.len (d : BertNerDataset) : Nat := d.input_ids.length

/-- `__getitem__`: the pair `(self.input_ids[index,:], self.label_ids[index,:])`.
The dataset itself is not modified (the source only reads the stored
tensors). -/
def BertNerDataset.getitem (d : BertNerDataset) (i : Nat) :
    Option (List Nat × List Nat) :=
  match d.input_ids.get? i, d.label_ids.get? i with
  | some a, some b => some (a, b)
  | _, _ => none

/-!
### Auxiliary predicates and concrete evaluation inputs

`LabelsInv` is the loop invariant of the reading phase of `handle`:
every recorded label is a member of the `label_list` set.  The `ex…`
definitions are small concrete inputs used to evaluate the pipeline on
closed data.
-/

/-- The number of blank-after-strip lines of a file: the number of
sentence separators seen by `handle`. -/
def blankCount : List String → Nat
  | [] => 0
  | line :: rest => (if pyStrip line = "" then 1 else 0) + blankCount rest

/-- Every label accumulated so far is in `label_list`. -/
def LabelsInv (st : ParseState) : Prop :=
  (∀ l ∈ st.labels, ∀ x ∈ l, x ∈ st.label_list) ∧
    ∀ x ∈ st.label, x ∈ st.label_list

/-- A tiny `vocab.txt`: three lines. -/
def exVocabLines : List String := ["[CLS]", "[SEP]", "a"]

/-- A tiny labelled input file: one sentence terminated by a blank line. -/
def exFile : List String := ["a X", ""]

/-- A trailing sentence with no blank-line terminator. -/
def exTail : List String := ["b Y"]

/-- The vocabulary dictionary built from the tiny files. -/
def exV : List (String × Nat) := (readVocab exVocabLines []).vocab2id

/-- A default `HandleResult` for `Option.getD`. -/
def emptyHandleResult : HandleResult :=
  { words := [], labels := [], label_list := [], label2id := [], id2label := []
    label_size := 0, input_ids := [], label_ids := [] }

/-- The result of `handle` on the tiny file. -/
def exH : HandleResult := (handle exV exFile).getD emptyHandleResult

/-- The result of `handle` on the tiny file extended with an
unterminated sentence. -/
def exH2 : HandleResult := (handle exV (exFile ++ exTail)).getD emptyHandleResult

/-!
### Helper lemmas
-/

theorem mapOption_isSome_iff {α β : Type} {f : α → Option β} {xs : List α} :
    (mapOption f xs).isSome ↔ ∀ x ∈ xs, (f x).isSome := by
  induction xs with
  | nil => simp [mapOption]
  | cons x xs ih =>
    cases hx : f x with
    | none =>
      simp only [mapOption, hx, Option.isSome_none, Bool.false_eq_true, false_iff]
      intro hall
      have := hall x (List.mem_cons_self x xs)
      rw [hx] at this
      simp at this
    | some y =>
      cases hxs : mapOption f xs with
      | none =>
        simp only [mapOption, hx, hxs, Option.isSome_none, Bool.false_eq_true,
          false_iff]
        intro hall
        have := ih.mpr (fun a ha => hall a (List.mem_cons_of_mem x ha))
        rw [hxs] at this
        simp at this
      | some ys =>
        simp only [mapOption, hx, hxs, Option.isSome_some, true_iff]
        intro a ha
        rcases List.mem_cons.mp ha with rfl | ha
        · rw [hx]; rfl
        · exact ih.mp (by rw [hxs]; rfl) a ha

theorem mapOption_forall₂ {α β : Type} {f : α → Option β} :
    ∀ {xs : List α} {ys : List β}, mapOption f xs = some ys →
      List.Forall₂ (fun x y => f x = some y) xs ys := by
  intro xs
  induction xs with
  | nil =>
    intro ys h
    simp only [mapOption, Option.some.injEq] at h
    subst h
    exact List.Forall₂.nil
  | cons x xs ih =>
    intro ys h
    cases hx : f x with
    | none => rw [mapOption, hx] at h; exact absurd h (by simp)
    | some y =>
      cases hxs : mapOption f xs with
      | none => rw [mapOption, hx, hxs] at h; exact absurd h (by simp)
      | some ys2 =>
        rw [mapOption, hx, hxs] at h
        simp only [Option.some.injEq] at h
        subst h
        exact List.Forall₂.cons hx (ih hxs)

theorem forall₂_mem_right {α β : Type} {R : α → β → Prop} :
    ∀ {xs : List α} {ys : List β}, List.Forall₂ R xs ys →
      ∀ {y}, y ∈ ys → ∃ x ∈ xs, R x y := by
  intro xs ys h
  induction h with
  | nil => intro y hy; exact absurd hy (List.not_mem_nil _)
  | @cons a b as bs hr _ ih =>
    intro y hy
    rcases List.mem_cons.mp hy with rfl | hy
    · exact ⟨a, List.mem_cons_self a as, hr⟩
    · rcases ih hy with ⟨x, hx, hxy⟩
      exact ⟨x, List.mem_cons_of_mem a hx, hxy⟩

theorem mapOption_length {α β : Type} {f : α → Option β} {xs : List α}
    {ys : List β} (h : mapOption f xs = some ys) : ys.length = xs.length :=
  (mapOption_forall₂ h).length_eq.symm

theorem dictLookup_isSome_iff {d : List (String × Nat)} {k : String} :
    (dictLookup d k).isSome ↔ k ∈ d.map Prod.fst := by
  unfold dictLookup
  rw [Option.isSome_map', List.find?_isSome]
  constructor
  · rintro ⟨p, hp, hpk⟩
    exact List.mem_map.mpr ⟨p, hp, beq_iff_eq.mp hpk⟩
  · intro hk
    rcases List.mem_map.mp hk with ⟨p, hp, hpk⟩
    exact ⟨p, hp, beq_iff_eq.mpr hpk⟩

theorem dictLookup_mem {d : List (String × Nat)} {k : String} {v : Nat}
    (h : dictLookup d k = some v) : (k, v) ∈ d := by
  unfold dictLookup at h
  cases hf : d.find? (fun p => p.1 == k) with
  | none => rw [hf] at h; exact absurd h (by simp)
  | some p =>
    rw [hf] at h
    simp only [Option.map_some', Option.some.injEq] at h
    have hm := List.mem_of_find?_eq_some hf
    have hk0 := List.find?_some hf
    have hk : p.1 = k := by simpa using hk0
    have : p = (k, v) := by
      cases p
      simp only [Prod.mk.injEq]
      exact ⟨hk, h⟩
    rwa [this] at hm

theorem mkDictFrom_map_fst : ∀ (xs : List String) (i : Nat),
    (mkDictFrom i xs).map Prod.fst = xs := by
  intro xs
  induction xs with
  | nil => intro i; rfl
  | cons x xs ih => intro i; simp [mkDictFrom, ih]

theorem mkDictFrom_map_snd : ∀ (xs : List String) (i : Nat),
    (mkDictFrom i xs).map Prod.snd = List.range' (1 + i) xs.length := by
  intro xs
  induction xs with
  | nil => intro i; rfl
  | cons x xs ih =>
    intro i
    simp only [mkDictFrom, List.map_cons, List.length_cons, ih]
    rw [List.range'_succ, Nat.add_assoc]

theorem mkDictFrom_snd_pos : ∀ (xs : List String) (i : Nat),
    ∀ p ∈ mkDictFrom i xs, 0 < p.2 := by
  intro xs
  induction xs with
  | nil => intro i p hp; exact absurd hp (List.not_mem_nil _)
  | cons x xs ih =>
    intro i p hp
    rcases List.mem_cons.mp hp with rfl | hp
    · simp
    · exact ih (i + 1) p hp

theorem mkDict_map_fst (xs : List String) : (mkDict xs).map Prod.fst = xs :=
  mkDictFrom_map_fst xs 0

theorem mkDict_map_snd (xs : List String) :
    (mkDict xs).map Prod.snd = List.range' 1 xs.length := by
  have := mkDictFrom_map_snd xs 0
  simpa using this

theorem mkDict_snd_pos (xs : List String) : ∀ p ∈ mkDict xs, 0 < p.2 :=
  mkDictFrom_snd_pos xs 0

theorem dictLookup_mkDict_isSome_iff {xs : List String} {k : String} :
    (dictLookup (mkDict xs) k).isSome ↔ k ∈ xs := by
  rw [dictLookup_isSome_iff, mkDict_map_fst]

theorem truncIds_length_le (ids : List Nat) :
    (truncIds ids).length ≤ max_seq_length - 2 := by
  unfold truncIds
  split
  · simp [List.length_take]
  · omega

theorem padTo_length {n : Nat} {ids : List Nat} (h : ids.length ≤ n) :
    (padTo n ids).length = n := by
  unfold padTo
  simp only [List.length_append, List.length_replicate]
  omega

theorem padTo_cons (n c : Nat) (t : List Nat) :
    padTo n (c :: t) = c :: (t ++ List.replicate (n - (t.length + 1)) 0) := by
  unfold padTo
  simp [List.cons_append]

theorem encodeSeq_eq_some_iff {toId : String → Option Nat}
    {toks : List String} {l : List Nat} :
    encodeSeq toId toks = some l ↔
      ∃ ids cls sep, mapOption toId toks = some ids ∧
        toId "[CLS]" = some cls ∧ toId "[SEP]" = some sep ∧
        l = padTo (max_seq_length - 1) (cls :: truncIds ids) ++ [sep] := by
  unfold encodeSeq
  cases h1 : mapOption toId toks with
  | none => simp [h1]
  | some ids =>
    cases h2 : toId "[CLS]" with
    | none => simp [h1, h2]
    | some cls =>
      cases h3 : toId "[SEP]" with
      | none => simp [h1, h2, h3]
      | some sep =>
        simp only [h1, h2, h3, Option.some.injEq]
        constructor
        · intro h
          exact ⟨ids, cls, sep, rfl, rfl, rfl, h.symm⟩
        · rintro ⟨ids2, cls2, sep2, hi, hc, hs, rfl⟩
          cases hi; cases hc; cases hs
          rfl

theorem encodeSeq_length {toId : String → Option Nat} {toks : List String}
    {l : List Nat} (h : encodeSeq toId toks = some l) :
    l.length = max_seq_length := by
  rcases encodeSeq_eq_some_iff.mp h with ⟨ids, cls, sep, _, _, _, rfl⟩
  have ht := truncIds_length_le ids
  rw [List.length_append, padTo_length]
  · simp [max_seq_length]
  · simp only [List.length_cons, max_seq_length] at ht ⊢
    omega

theorem encodeSeq_isSome_iff {toId : String → Option Nat} {toks : List String} :
    (encodeSeq toId toks).isSome ↔
      (∀ t ∈ toks, (toId t).isSome) ∧ (toId "[CLS]").isSome ∧
        (toId "[SEP]").isSome := by
  unfold encodeSeq
  rw [← mapOption_isSome_iff]
  cases h1 : mapOption toId toks with
  | none => simp [h1]
  | some ids =>
    cases h2 : toId "[CLS]" with
    | none => simp [h1, h2]
    | some cls =>
      cases h3 : toId "[SEP]" with
      | none => simp [h1, h2, h3]
      | some sep => simp [h1, h2, h3]

theorem subset_addToSet (s : List String) (x : String) : s ⊆ addToSet s x := by
  unfold addToSet
  split
  · exact fun a ha => ha
  · exact fun a ha => List.mem_append_left _ ha

theorem mem_addToSet_self (s : List String) (x : String) : x ∈ addToSet s x := by
  unfold addToSet
  split
  · assumption
  · exact List.mem_append_right _ (List.mem_singleton.mpr rfl)

theorem addToSet_nodup {s : List String} {x : String} (h : s.Nodup) :
    (addToSet s x).Nodup := by
  unfold addToSet
  by_cases hx : x ∈ s
  · simpa [hx] using h
  · simp only [hx, if_false]
    rw [List.nodup_append]
    exact ⟨h, List.nodup_singleton x,
      fun a ha hax => hx (by rwa [List.mem_singleton.mp hax] at ha)⟩

theorem parseLines_append : ∀ (f s : List String) (st : ParseState),
    parseLines (f ++ s) st = (parseLines f st).bind (parseLines s) := by
  intro f
  induction f with
  | nil => intro s st; rfl
  | cons line rest ih =>
    intro s st
    by_cases hb : pyStrip line = ""
    · simp only [List.cons_append, parseLines, hb, if_true]
      exact ih s _
    · cases hg : (pySplitSpace (pyStrip line))[1]? with
      | none => simp [parseLines, hb, hg]
      | some lab =>
        simp only [List.cons_append, parseLines, hb, if_false, hg]
        exact ih s _

theorem parseLines_label_list_mono :
    ∀ {lines : List String} {st st' : ParseState},
      parseLines lines st = some st' → st.label_list ⊆ st'.label_list := by
  intro lines
  induction lines with
  | nil =>
    intro st st' h
    simp only [parseLines, Option.some.injEq] at h
    subst h
    exact fun a ha => ha
  | cons line rest ih =>
    intro st st' h
    by_cases hb : pyStrip line = ""
    · simp only [parseLines, hb, if_true] at h
      have := ih h
      exact this
    · cases hg : (pySplitSpace (pyStrip line))[1]? with
      | none => simp [parseLines, hb, hg] at h
      | some lab =>
        simp only [parseLines, hb, if_false, hg] at h
        have := ih h
        exact fun a ha => this (subset_addToSet _ _ ha)

theorem parseLines_label_list_nodup :
    ∀ {lines : List String} {st st' : ParseState},
      parseLines lines st = some st' → st.label_list.Nodup →
        st'.label_list.Nodup := by
  intro lines
  induction lines with
  | nil =>
    intro st st' h hn
    simp only [parseLines, Option.some.injEq] at h
    subst h
    exact hn
  | cons line rest ih =>
    intro st st' h hn
    by_cases hb : pyStrip line = ""
    · simp only [parseLines, hb, if_true] at h
      have := ih h
      exact this hn
    · cases hg : (pySplitSpace (pyStrip line))[1]? with
      | none => simp [parseLines, hb, hg] at h
      | some lab =>
        simp only [parseLines, hb, if_false, hg] at h
        have := ih h
        exact this (addToSet_nodup hn)

theorem parseLines_labelsInv :
    ∀ {lines : List String} {st st' : ParseState},
      parseLines lines st = some st' → LabelsInv st → LabelsInv st' := by
  intro lines
  induction lines with
  | nil =>
    intro st st' h hi
    simp only [parseLines, Option.some.injEq] at h
    subst h
    exact hi
  | cons line rest ih =>
    intro st st' h hi
    by_cases hb : pyStrip line = ""
    · simp only [parseLines, hb, if_true] at h
      refine ih h ⟨?_, ?_⟩
      · intro l hl x hx
        rcases List.mem_append.mp hl with hl | hl
        · exact hi.1 l hl x hx
        · rw [List.mem_singleton.mp hl] at hx
          exact hi.2 x hx
      · intro x hx
        exact absurd hx (List.not_mem_nil x)
    · cases hg : (pySplitSpace (pyStrip line))[1]? with
      | none => simp [parseLines, hb, hg] at h
      | some lab =>
        simp only [parseLines, hb, if_false, hg] at h
        refine ih h ⟨?_, ?_⟩
        · intro l hl x hx
          exact subset_addToSet _ _ (hi.1 l hl x hx)
        · intro x hx
          rcases List.mem_append.mp hx with hx | hx
          · exact subset_addToSet _ _ (hi.2 x hx)
          · rw [List.mem_singleton.mp hx]
            exact mem_addToSet_self _ _

theorem parseLines_counts :
    ∀ {lines : List String} {st st' : ParseState},
      parseLines lines st = some st' →
        st'.words.length = st.words.length + blankCount lines ∧
          st'.labels.length = st.labels.length + blankCount lines := by
  intro lines
  induction lines with
  | nil =>
    intro st st' h
    simp only [parseLines, Option.some.injEq] at h
    subst h
    simp [blankCount]
  | cons line rest ih =>
    intro st st' h
    by_cases hb : pyStrip line = ""
    · simp only [parseLines, hb, if_true] at h
      have := ih h
      dsimp only at this
      simp only [List.length_append, List.length_singleton] at this
      simp only [blankCount, hb, if_true]
      omega
    · cases hg : (pySplitSpace (pyStrip line))[1]? with
      | none => simp [parseLines, hb, hg] at h
      | some lab =>
        simp only [parseLines, hb, if_false, hg] at h
        have := ih h
        dsimp only at this
        simp only [blankCount, hb, if_false]
        omega

theorem parseLines_no_blank :
    ∀ {s : List String} {st st' : ParseState},
      (∀ l ∈ s, ¬ pyStrip l = "") → parseLines s st = some st' →
        st'.words = st.words ∧ st'.labels = st.labels := by
  intro s
  induction s with
  | nil =>
    intro st st' _ h
    simp only [parseLines, Option.some.injEq] at h
    subst h
    exact ⟨rfl, rfl⟩
  | cons line rest ih =>
    intro st st' hs h
    have hb : ¬ pyStrip line = "" := hs line (List.mem_cons_self line rest)
    cases hg : (pySplitSpace (pyStrip line))[1]? with
    | none => simp [parseLines, hb, hg] at h
    | some lab =>
      simp only [parseLines, hb, if_false, hg] at h
      have := ih (fun l hl => hs l (List.mem_cons_of_mem line hl)) h
      exact this

theorem parseLines_isSome_iff :
    ∀ {lines : List String} {st : ParseState},
      (parseLines lines st).isSome ↔
        ∀ l ∈ lines, pyStrip l ≠ "" →
          2 ≤ (pySplitSpace (pyStrip l)).length := by
  intro lines
  induction lines with
  | nil => intro st; simp [parseLines]
  | cons line rest ih =>
    intro st
    by_cases hb : pyStrip line = ""
    · simp only [parseLines, hb, if_true]
      rw [ih]
      constructor
      · intro h l hl
        rcases List.mem_cons.mp hl with rfl | hl
        · intro hc; exact absurd hb hc
        · exact h l hl
      · intro h l hl
        exact h l (List.mem_cons_of_mem line hl)
    · cases hg : (pySplitSpace (pyStrip line))[1]? with
      | none =>
        have hlen : (pySplitSpace (pyStrip line)).length ≤ 1 :=
          List.getElem?_eq_none_iff.mp hg
        simp only [parseLines, hb, if_false, hg, Option.isSome_none,
          Bool.false_eq_true, false_iff]
        intro hall
        have := hall line (List.mem_cons_self line rest) hb
        omega
      | some lab =>
        have hlen : 2 ≤ (pySplitSpace (pyStrip line)).length := by
          rcases List.getElem?_eq_some_iff.mp hg with ⟨hlt, _⟩
          omega
        simp only [parseLines, hb, if_false, hg]
        rw [ih]
        constructor
        · intro h l hl
          rcases List.mem_cons.mp hl with rfl | hl
          · intro _; exact hlen
          · exact h l hl
        · intro h l hl
          exact h l (List.mem_cons_of_mem line hl)

theorem handle_some_elim {v : List (String × Nat)} {f : List String}
    {h : HandleResult} (hh : handle v f = some h) :
    ∃ st, parseLines f initParseState = some st ∧
      h.words = st.words ∧ h.labels = st.labels ∧
      h.label_list = st.label_list ∧ h.label2id = mkDict st.label_list ∧
      h.id2label = mkDictRev st.label_list ∧
      h.label_size = st.label_list.length ∧
      mapOption (encodeSeq (dictLookup v)) st.words = some h.input_ids ∧
      mapOption (encodeSeq (dictLookup (mkDict st.label_list))) st.labels =
        some h.label_ids := by
  unfold handle at hh
  cases hp : parseLines f initParseState with
  | none => rw [hp] at hh; exact absurd hh (by simp)
  | some st =>
    simp only [hp] at hh
    cases hw : mapOption (encodeSeq (dictLookup v)) st.words with
    | none => simp only [hw] at hh; exact absurd hh (by simp)
    | some input_ids =>
      simp only [hw] at hh
      cases hl : mapOption (encodeSeq (dictLookup (mkDict st.label_list)))
          st.labels with
      | none => simp only [hl] at hh; exact absurd hh (by simp)
      | some label_ids =>
        simp only [hl, Option.some.injEq] at hh
        subst hh
        exact ⟨st, rfl, rfl, rfl, rfl, rfl, rfl, rfl, hw, hl⟩

theorem labels_encode_isSome {f : List String} {st : ParseState}
    (h : parseLines f initParseState = some st) :
    (mapOption (encodeSeq (dictLookup (mkDict st.label_list)))
      st.labels).isSome := by
  have hinv : LabelsInv st := by
    have := parseLines_labelsInv h
    refine this ⟨?_, ?_⟩
    · intro l hl; exact absurd hl (List.not_mem_nil l)
    · intro x hx; exact absurd hx (List.not_mem_nil x)
  have hmono := parseLines_label_list_mono h
  have hcls : "[CLS]" ∈ st.label_list := hmono (by simp [initParseState])
  have hsep : "[SEP]" ∈ st.label_list := hmono (by simp [initParseState])
  rw [mapOption_isSome_iff]
  intro lab hlab
  rw [encodeSeq_isSome_iff]
  refine ⟨fun t ht => ?_, ?_, ?_⟩ <;> rw [dictLookup_mkDict_isSome_iff]
  · exact hinv.1 lab hlab t ht
  · exact hcls
  · exact hsep

theorem handle_isSome_iff {v : List (String × Nat)} {f : List String} :
    (handle v f).isSome ↔
      ∃ st, parseLines f initParseState = some st ∧
        ∀ w ∈ st.words, (encodeSeq (dictLookup v) w).isSome := by
  constructor
  · intro hs
    rcases Option.isSome_iff_exists.mp hs with ⟨h, hh⟩
    rcases handle_some_elim hh with ⟨st, hp, _, _, _, _, _, _, hw, _⟩
    refine ⟨st, hp, ?_⟩
    rw [← mapOption_isSome_iff, hw]
    rfl
  · rintro ⟨st, hp, hall⟩
    have hw0 : (mapOption (encodeSeq (dictLookup v)) st.words).isSome :=
      mapOption_isSome_iff.mpr hall
    rcases Option.isSome_iff_exists.mp hw0 with ⟨input_ids, hw⟩
    have hl0 := labels_encode_isSome hp
    rcases Option.isSome_iff_exists.mp hl0 with ⟨label_ids, hl⟩
    unfold handle
    rw [hp]
    simp [hw, hl]

theorem encodeSeq_shape {toId : String → Option Nat} {toks : List String}
    {l : List Nat} (h : encodeSeq toId toks = some l) :
    ∃ ids cls sep, mapOption toId toks = some ids ∧
      toId "[CLS]" = some cls ∧ toId "[SEP]" = some sep ∧
      l = cls :: ((truncIds ids ++
        List.replicate (max_seq_length - 2 - (truncIds ids).length) 0) ++
          [sep]) ∧
      l.length = max_seq_length := by
  have hlen := encodeSeq_length h
  rcases encodeSeq_eq_some_iff.mp h with ⟨ids, cls, sep, hi, hc, hs, hl⟩
  subst hl
  refine ⟨ids, cls, sep, hi, hc, hs, ?_, hlen⟩
  rw [padTo_cons, List.cons_append]
  have harith : max_seq_length - 1 - ((truncIds ids).length + 1) =
      max_seq_length - 2 - (truncIds ids).length := by
    simp only [max_seq_length]
    omega
  rw [harith]

theorem dictLookup_mkDict_pos {xs : List String} {k : String} {val : Nat}
    (h : dictLookup (mkDict xs) k = some val) : 0 < val :=
  mkDict_snd_pos xs (k, val) (dictLookup_mem h)

theorem words_encode_iff {v : List (String × Nat)} {words : List (List String)} :
    (∀ w ∈ words, (encodeSeq (dictLookup v) w).isSome) ↔
      (∀ t ∈ words.flatten, (dictLookup v t).isSome) ∧
        (words = [] ∨
          ((dictLookup v "[CLS]").isSome ∧ (dictLookup v "[SEP]").isSome)) := by
  constructor
  · intro hall
    constructor
    · intro t ht
      rcases List.mem_flatten.mp ht with ⟨w, hw, htw⟩
      exact (encodeSeq_isSome_iff.mp (hall w hw)).1 t htw
    · cases words with
      | nil => exact Or.inl rfl
      | cons w ws =>
        right
        have := encodeSeq_isSome_iff.mp (hall w (List.mem_cons_self w ws))
        exact ⟨this.2.1, this.2.2⟩
  · rintro ⟨hflat, hcs⟩ w hw
    rw [encodeSeq_isSome_iff]
    rcases hcs with rfl | ⟨hc, hs2⟩
    · exact absurd hw (List.not_mem_nil w)
    · exact ⟨fun t ht => hflat t (List.mem_flatten.mpr ⟨w, hw, ht⟩), hc, hs2⟩

theorem parseLines_albert_eq : ∀ (lines : List String) (st : ParseState),
    parseLines_albert lines st = parseLines lines st := by
  intro lines
  induction lines with
  | nil => intro st; rfl
  | cons line rest ih =>
    intro st
    by_cases hb : pyStrip line = ""
    · simp only [parseLines_albert, parseLines, hb, if_true]
      exact ih _
    · cases hg : (pySplitSpace (pyStrip line))[1]? with
      | none => simp [parseLines_albert, parseLines, hb, hg]
      | some lab =>
        simp only [parseLines_albert, parseLines, hb, if_false, hg]
        exact ih _

/-!
### The claims
-/

/-- C6: the vocabulary returned by `readVocab` equals, as a set, the
union of the stripped lines of `vocab.txt` and the first
space-delimited fields of the non-empty stripped lines of `train.txt`
(duplicates collapsed), and the returned size equals the cardinality of
that set. -/
theorem C6_readVocab_union (vc tc : List String) :
    (readVocab vc tc).vocab.toFinset =
        (vc.map pyStrip).toFinset ∪
          ((tc.filter (fun l => pyStrip l != "")).map firstField).toFinset ∧
      (readVocab vc tc).size =
        ((vc.map pyStrip).toFinset ∪
          ((tc.filter (fun l => pyStrip l != "")).map firstField).toFinset).card ∧
      (readVocab vc tc).vocab.Nodup := by
  have hset : (collectVocab vc tc).dedup.toFinset =
      (vc.map pyStrip).toFinset ∪
        ((tc.filter (fun l => pyStrip l != "")).map firstField).toFinset := by
    rw [← List.toFinset_append]
    ext a
    simp [List.mem_dedup, collectVocab]
  refine ⟨hset, ?_, List.nodup_dedup _⟩
  rw [← hset, List.card_toFinset]
  show (collectVocab vc tc).dedup.length = (collectVocab vc tc).dedup.dedup.length
  rw [List.dedup_idem]

/-- C2: `vocab2id` (built by `readVocab`) and `label2id` (built by
`handle`) are injective dictionaries whose keys are exactly the distinct
collected strings and whose values are the dense range `1..N`, the
`i`-th enumerated set element receiving `1+i`. -/
theorem C2_dicts_dense (vc tc f : List String) (h : HandleResult)
    (hh : handle (readVocab vc tc).vocab2id f = some h) :
    (readVocab vc tc).vocab2id.map Prod.fst = (readVocab vc tc).vocab ∧
      (readVocab vc tc).vocab.Nodup ∧
      (readVocab vc tc).vocab2id.map Prod.snd =
        List.range' 1 (readVocab vc tc).size ∧
      h.label2id.map Prod.fst = h.label_list ∧
      h.label_list.Nodup ∧
      h.label2id.map Prod.snd = List.range' 1 h.label_size := by
  rcases handle_some_elim hh with ⟨st, hp, _, _, hll, hl2, _, hsz, _, _⟩
  refine ⟨mkDict_map_fst _, List.nodup_dedup _, mkDict_map_snd _, ?_, ?_, ?_⟩
  · rw [hl2, hll, mkDict_map_fst]
  · rw [hll]
    exact parseLines_label_list_nodup hp (by decide)
  · rw [hl2, hsz, mkDict_map_snd]

/-- C2 witness: the label dictionary of the concrete run has dense
1-based values. -/
theorem C2_dicts_dense_witness :
    exH.label2id.map Prod.snd = List.range' 1 exH.label_size :=
  (C2_dicts_dense exVocabLines [] exFile exH rfl).2.2.2.2.2

/-- C10: the `readVocab` and `handle` of the BERT notebook and those of
the ALBERT notebooks are extensionally equal: on every input they return
the same vocabulary, id mappings and encoded id lists. -/
theorem C10_pipelines_equal :
    ∀ (vc tc : List String) (v : List (String × Nat)) (f : List String),
      readVocab_albert vc tc = readVocab vc tc ∧
        handle_albert v f = handle v f := by
  intro vc tc v f
  constructor
  · rfl
  · unfold handle_albert handle
    rw [parseLines_albert_eq]
    cases parseLines f initParseState with
    | none => rfl
    | some st => rfl

/-- C5 (code bug in one class): seven of the eight model classes are the
claimed thin compositions — with tags, `forward` returns exactly the
negation of the library CRF value on the encoder output, and without
tags `crf.decode` of the `(1,0,2)`-permuted encoder output — but
`AlBertBiGRUSelfAttentionCRFNer.forward` as written binds `y` to the
whole albert output tuple (`y = self.albert(x)`, no unpacking) and feeds
it to `nn.GRU`, which raises for every input, so that `forward` never
returns either claimed value; the second copy of the same class bundled
in the notebook unpacks the tuple and does satisfy the claimed contract,
showing the missing unpacking to be a slip. -/
theorem C5_models_forward :
    (∀ (m : BertCRFNer) (x : IdBatch) (t : Tags),
      m.forward x (some t) = Sum.inr (-(m.crf.value (m.bert x) t)) ∧
        m.forward x none = Sum.inl (m.crf.decode (permute102 (m.bert x)))) ∧
    (∀ (m : BertBiLSTMCRFNer) (x : IdBatch) (t : Tags),
      m.forward x (some t) =
          Sum.inr (-(m.crf.value (m.bilstm (m.bert x)) t)) ∧
        m.forward x none =
          Sum.inl (m.crf.decode (permute102 (m.bilstm (m.bert x))))) ∧
    (∀ (m : BertBiGRUCRFNer) (x : IdBatch) (t : Tags),
      m.forward x (some t) =
          Sum.inr (-(m.crf.value (m.bigru (m.bert x)) t)) ∧
        m.forward x none =
          Sum.inl (m.crf.decode (permute102 (m.bigru (m.bert x))))) ∧
    (∀ (m : BertBiGRUSelfAttentionCRFNer) (x : IdBatch)
        (w1 w2 w3 : Tensor3) (t : Tags),
      m.forward x w1 w2 w3 (some t) =
          Sum.inr (-(m.crf.value
            ((m.selfattention.forward (m.bigru (m.bert x)) w1 w2 w3).1) t)) ∧
        m.forward x w1 w2 w3 none =
          Sum.inl (m.crf.decode (permute102
            ((m.selfattention.forward (m.bigru (m.bert x)) w1 w2 w3).1)))) ∧
    (∀ (m : AlBertCRFNer) (x : IdBatch) (t : Tags),
      m.forward x (some t) = Sum.inr (-(m.crf.value (m.albert x) t)) ∧
        m.forward x none = Sum.inl (m.crf.decode (permute102 (m.albert x)))) ∧
    (∀ (m : AlBertBiLSTMCRFNer) (x : IdBatch) (t : Tags),
      m.forward x (some t) =
          Sum.inr (-(m.crf.value (m.bilstm (m.albert x)) t)) ∧
        m.forward x none =
          Sum.inl (m.crf.decode (permute102 (m.bilstm (m.albert x))))) ∧
    (∀ (m : AlBertBiGRUCRFNer) (x : IdBatch) (t : Tags),
      m.forward x (some t) =
          Sum.inr (-(m.crf.value (m.bigru (m.albert x)) t)) ∧
        m.forward x none =
          Sum.inl (m.crf.decode (permute102 (m.bigru (m.albert x))))) ∧
    (∀ (m : AlBertBiGRUSelfAttentionCRFNer) (x : IdBatch)
        (w1 w2 w3 : Tensor3) (tags : Option Tags),
      m.forward x w1 w2 w3 tags = none) ∧
    (∀ (m : AlBertBiGRUSelfAttentionCRFNerV2) (x : IdBatch)
        (w1 w2 w3 : Tensor3) (t : Tags),
      m.forward x w1 w2 w3 (some t) =
          Sum.inr (-(m.crf.value
            ((m.selfattention.forward (m.bigru (m.albert x)) w1 w2 w3).1) t)) ∧
        m.forward x w1 w2 w3 none =
          Sum.inl (m.crf.decode (permute102
            ((m.selfattention.forward (m.bigru (m.albert x)) w1 w2 w3).1)))) :=
  ⟨fun _ _ _ => ⟨rfl, rfl⟩, fun _ _ _ => ⟨rfl, rfl⟩, fun _ _ _ => ⟨rfl, rfl⟩,
    fun _ _ _ _ _ _ => ⟨rfl, rfl⟩, fun _ _ _ => ⟨rfl, rfl⟩,
    fun _ _ _ => ⟨rfl, rfl⟩, fun _ _ _ => ⟨rfl, rfl⟩,
    fun _ _ _ _ _ _ => rfl,
    fun _ _ _ _ _ _ => ⟨rfl, rfl⟩⟩

/-- C3: `SelfAttention.forward` re-samples its projection weights on
every call: the module state is returned unchanged (no projection weight
survives a call), and the output genuinely depends on the freshly drawn
weights, so two calls on the same input with independent draws can
disagree — the result is not a function of the module state and the
input alone. -/
theorem C3_selfattention_resamples :
    (∀ (m : SelfAttention) (x w1 w2 w3 : Tensor3),
      (m.forward x w1 w2 w3).2 = m) ∧
    (∃ (m : SelfAttention) (x w w2 : Tensor3), w ≠ w2 ∧
      (m.forward x w w w).1 ≠ (m.forward x w2 w2 w2).1) := by
  refine ⟨fun m x w1 w2 w3 => rfl,
    ⟨⟨1, fun q _ _ => q⟩, [[[1]]], [[[1]]], [[[2]]], ?_, ?_⟩⟩
  · decide
  · simp [SelfAttention.forward, matmul3, matMul, matTranspose, matCols]

/-- C7 counterexample: a dataset whose `label_ids` tensor has fewer rows
than `input_ids` has positive length but `__getitem__(0)` raises instead
of returning the pair of rows, refuting the claim for arbitrary pairs of
stored tensors. -/
theorem C7_counterexample :
    (BertNerDataset.mk [[1]] []).len = 1 ∧
      (BertNerDataset.mk [[1]] []).getitem 0 = none :=
  ⟨rfl, rfl⟩

/-- C7 amended: `__len__` always returns the number of stored input
rows, and whenever index `i` is in range for **both** stored tensors,
`__getitem__(i)` returns exactly the pair of the `i`-th input row and
the `i`-th label row (the stored tensors are only read, never
modified). -/
theorem C7_dataset_access (d : BertNerDataset) (i : Nat) (a b : List Nat)
    (ha : d.input_ids.get? i = some a) (hb : d.label_ids.get? i = some b) :
    d.len = d.input_ids.length ∧ d.getitem i = some (a, b) := by
  refine ⟨rfl, ?_⟩
  unfold BertNerDataset.getitem
  rw [ha, hb]

/-- C7 witness: the amended access theorem evaluated on a concrete
two-row dataset. -/
theorem C7_dataset_access_witness :
    (BertNerDataset.mk [[1], [2]] [[5], [6]]).len = 2 ∧
      (BertNerDataset.mk [[1], [2]] [[5], [6]]).getitem 0 = some ([1], [5]) :=
  C7_dataset_access (BertNerDataset.mk [[1], [2]] [[5], [6]]) 0 [1] [5] rfl rfl

/-- C1: every sequence encoded by `handle` has length exactly
`max_seq_length = 202`: the token ids beyond the first
`max_seq_length - 2` are dropped, the `[CLS]` id sits at index 0, zeros
are appended until the list has `max_seq_length - 1` elements, and the
`[SEP]` id is appended last; the same holds for the label id lists
encoded through `label2id`. -/
theorem C1_fixed_length_encoding (v : List (String × Nat)) (f : List String)
    (h : HandleResult) (hh : handle v f = some h) :
    List.Forall₂ (fun w l => ∃ ids cls sep,
        mapOption (dictLookup v) w = some ids ∧
        dictLookup v "[CLS]" = some cls ∧ dictLookup v "[SEP]" = some sep ∧
        l = cls :: ((truncIds ids ++
          List.replicate (max_seq_length - 2 - (truncIds ids).length) 0) ++
            [sep]) ∧
        l.length = max_seq_length) h.words h.input_ids ∧
      List.Forall₂ (fun w l => ∃ ids cls sep,
        mapOption (dictLookup h.label2id) w = some ids ∧
        dictLookup h.label2id "[CLS]" = some cls ∧
        dictLookup h.label2id "[SEP]" = some sep ∧
        l = cls :: ((truncIds ids ++
          List.replicate (max_seq_length - 2 - (truncIds ids).length) 0) ++
            [sep]) ∧
        l.length = max_seq_length) h.labels h.label_ids ∧
      (∀ l ∈ h.input_ids, l.length = max_seq_length) ∧
      (∀ l ∈ h.label_ids, l.length = max_seq_length) := by
  rcases handle_some_elim hh with ⟨st, _, hw_eq, hl_eq, _, hl2, _, _, hmw, hml⟩
  have hfw := mapOption_forall₂ hmw
  have hfl := mapOption_forall₂ hml
  rw [← hw_eq] at hfw
  rw [← hl_eq, ← hl2] at hfl
  refine ⟨?_, ?_, ?_, ?_⟩
  · exact hfw.imp (fun w l hw2 => encodeSeq_shape hw2)
  · exact hfl.imp (fun w l hw2 => encodeSeq_shape hw2)
  · intro l hl
    rcases forall₂_mem_right hfw hl with ⟨w, _, hwl⟩
    exact encodeSeq_length hwl
  · intro l hl
    rcases forall₂_mem_right hfl hl with ⟨w, _, hwl⟩
    exact encodeSeq_length hwl

/-- C1 witness: on the concrete run the first encoded input list has
length 202. -/
theorem C1_fixed_length_encoding_witness :
    (exH.input_ids.getD 0 []).length = max_seq_length :=
  (C1_fixed_length_encoding exV exFile exH rfl).2.2.1
    (exH.input_ids.getD 0 []) (by decide)

/-- C8: in every sequence encoded by `handle` (with the vocabulary
dictionary built by `readVocab`) the `[SEP]` id is the final element, at
index `max_seq_length - 1`, every padding zero lies strictly between the
real token ids and the `[SEP]`, and `0` is never a value of `vocab2id`
or `label2id` (all real ids are at least 1), so padding positions are
distinguishable from every token and label id. -/
theorem C8_padding_distinguishable (vc tc f : List String)
    (h : HandleResult)
    (hh : handle (readVocab vc tc).vocab2id f = some h) :
    (∀ p ∈ (readVocab vc tc).vocab2id, 0 < p.2) ∧
      (∀ p ∈ h.label2id, 0 < p.2) ∧
      (∀ l ∈ h.input_ids, ∃ cls ids k sep,
        l = cls :: ((ids ++ List.replicate k 0) ++ [sep]) ∧
        0 < cls ∧ 0 < sep ∧ (∀ a ∈ ids, 0 < a) ∧
        l.getLast? = some sep ∧ l[max_seq_length - 1]? = some sep) ∧
      (∀ l ∈ h.label_ids, ∃ cls ids k sep,
        l = cls :: ((ids ++ List.replicate k 0) ++ [sep]) ∧
        0 < cls ∧ 0 < sep ∧ (∀ a ∈ ids, 0 < a) ∧
        l.getLast? = some sep ∧ l[max_seq_length - 1]? = some sep) := by
  rcases handle_some_elim hh with ⟨st, _, _, _, _, hl2, _, _, hmw, hml⟩
  have hfw := mapOption_forall₂ hmw
  have hfl := mapOption_forall₂ hml
  have main : ∀ (d : List String) (l : List Nat) (w : List String),
      encodeSeq (dictLookup (mkDict d)) w = some l →
      ∃ cls ids k sep,
        l = cls :: ((ids ++ List.replicate k 0) ++ [sep]) ∧
        0 < cls ∧ 0 < sep ∧ (∀ a ∈ ids, 0 < a) ∧
        l.getLast? = some sep ∧ l[max_seq_length - 1]? = some sep := by
    intro d l w hw
    rcases encodeSeq_shape hw with ⟨ids, cls, sep, hi, hc, hs, hshape, hlen⟩
    refine ⟨cls, truncIds ids,
      max_seq_length - 2 - (truncIds ids).length, sep, hshape,
      dictLookup_mkDict_pos hc, dictLookup_mkDict_pos hs, ?_, ?_, ?_⟩
    · intro a ha
      have ha2 : a ∈ ids := by
        unfold truncIds at ha
        split at ha
        · exact List.mem_of_mem_take ha
        · exact ha
      rcases forall₂_mem_right (mapOption_forall₂ hi) ha2 with ⟨t, _, ht⟩
      exact dictLookup_mkDict_pos ht
    · rw [hshape, ← List.cons_append]
      exact List.getLast?_concat _
    · have hgl : l.getLast? = some sep := by
        rw [hshape, ← List.cons_append]
        exact List.getLast?_concat _
      rw [List.getLast?_eq_getElem?] at hgl
      rwa [hlen] at hgl
  refine ⟨mkDict_snd_pos _, ?_, ?_, ?_⟩
  · rw [hl2]
    exact mkDict_snd_pos _
  · intro l hl
    rcases forall₂_mem_right hfw hl with ⟨w, _, hwl⟩
    exact main _ l w hwl
  · intro l hl
    rcases forall₂_mem_right hfl hl with ⟨w, _, hwl⟩
    exact main _ l w hwl

/-- C8 witness: on the concrete run the third label dictionary entry has
a positive id value. -/
theorem C8_padding_distinguishable_witness :
    0 < (exH.label2id.getD 2 ("", 0)).2 :=
  (C8_padding_distinguishable exVocabLines [] exFile exH rfl).2.1
    (exH.label2id.getD 2 ("", 0)) (by decide)

/-- C9: `handle` only emits blank-line-terminated sentences.  Appending
lines that contain no blank separator leaves `words`, `labels` and
`input_ids` unchanged (and the number of label rows unchanged), so the
trailing unterminated sentence appears in no returned output, and the
number of returned sentences equals the number of blank-line separators
in the file. -/
theorem C9_unterminated_dropped (v : List (String × Nat)) (f s : List String)
    (h h2 : HandleResult) (hs : ∀ l ∈ s, pyStrip l ≠ "")
    (hf : handle v f = some h) (hfs : handle v (f ++ s) = some h2) :
    h2.words = h.words ∧ h2.labels = h.labels ∧
      h2.input_ids = h.input_ids ∧
      h2.label_ids.length = h.label_ids.length ∧
      h.words.length = blankCount f ∧
      h.input_ids.length = h.words.length ∧
      h.labels.length = h.words.length ∧
      h.label_ids.length = h.words.length := by
  rcases handle_some_elim hf with ⟨st, hp, hw_eq, hl_eq, _, _, _, _, hmw, hml⟩
  rcases handle_some_elim hfs with
    ⟨st2, hp2, hw2_eq, hl2_eq, _, _, _, _, hmw2, hml2⟩
  rw [parseLines_append, hp, Option.some_bind] at hp2
  have hnb := parseLines_no_blank hs hp2
  have hwords : h2.words = h.words := by rw [hw_eq, hw2_eq, hnb.1]
  have hlabels : h2.labels = h.labels := by rw [hl_eq, hl2_eq, hnb.2]
  have hcnt := parseLines_counts hp
  have hinit : initParseState.words.length = 0 := rfl
  have hinitl : initParseState.labels.length = 0 := rfl
  obtain ⟨hc1, hc2⟩ := hcnt
  refine ⟨hwords, hlabels, ?_, ?_, ?_, ?_, ?_, ?_⟩
  · rw [hnb.1] at hmw2
    rw [hmw] at hmw2
    simp only [Option.some.injEq] at hmw2
    exact hmw2.symm
  · have e1 := mapOption_length hml
    have e2 := mapOption_length hml2
    rw [hnb.2] at e2
    omega
  · rw [hw_eq]
    omega
  · have e := mapOption_length hmw
    rw [hw_eq]
    omega
  · rw [hw_eq, hl_eq]
    omega
  · have e := mapOption_length hml
    rw [hw_eq]
    omega

/-- C9 witness: on the concrete run, appending an unterminated sentence
changes no emitted row, and the sentence count equals the blank-line
count. -/
theorem C9_unterminated_dropped_witness :
    exH2.input_ids = exH.input_ids ∧ exH.words.length = blankCount exFile := by
  have h := C9_unterminated_dropped exV exFile exTail exH exH2
    (by decide) rfl rfl
  exact ⟨h.2.2.1, h.2.2.2.2.1⟩

/-- C4 counterexample: with a vocabulary not containing `unk`, `handle`
on the one-line file `["unk X"]` terminates normally even though the
first field `unk` of that non-empty line is not a key of `vocab2id`,
because the unterminated final sentence is never looked up — refuting
the claimed equivalence. -/
theorem C4_counterexample :
    (handle (readVocab ["[CLS]", "[SEP]"] []).vocab2id ["unk X"]).isSome =
        true ∧
      "unk" ∈ (List.filter (fun l => pyStrip l != "") ["unk X"]).map
        firstField ∧
      dictLookup (readVocab ["[CLS]", "[SEP]"] []).vocab2id "unk" = none := by
  refine ⟨rfl, ?_, rfl⟩
  decide

/-- C4 amended: `handle` terminates normally iff the reading phase
succeeds and the encoding preconditions hold: (a) success is equivalent
to the existence of a parse whose blank-line-terminated sentences
contain only tokens that are keys of `vocab2id`, with `[CLS]` and
`[SEP]` also keys whenever at least one sentence was completed; (b) the
reading phase succeeds iff every non-empty line has at least two
space-delimited fields (otherwise `linesplit[1]` raises); (c) for the
default file `data/train.txt` every first field of every non-empty line
is a key of `vocab2id`, because `readVocab` inserts every such field
into the vocabulary. -/
theorem C4_handle_success_iff (vc tc f : List String) :
    ((handle (readVocab vc tc).vocab2id f).isSome ↔
      ∃ st, parseLines f initParseState = some st ∧
        (∀ t ∈ st.words.flatten,
          (dictLookup (readVocab vc tc).vocab2id t).isSome) ∧
        (st.words = [] ∨
          ((dictLookup (readVocab vc tc).vocab2id "[CLS]").isSome ∧
            (dictLookup (readVocab vc tc).vocab2id "[SEP]").isSome))) ∧
      ((parseLines f initParseState).isSome ↔
        ∀ l ∈ f, pyStrip l ≠ "" →
          2 ≤ (pySplitSpace (pyStrip l)).length) ∧
      (∀ t ∈ (tc.filter (fun l => pyStrip l != "")).map firstField,
        (dictLookup (readVocab vc tc).vocab2id t).isSome) := by
  refine ⟨?_, parseLines_isSome_iff, ?_⟩
  · rw [handle_isSome_iff]
    exact exists_congr fun st => and_congr_right fun _ => words_encode_iff
  · intro t ht
    show (dictLookup (mkDict (collectVocab vc tc).dedup) t).isSome = true
    rw [dictLookup_mkDict_isSome_iff, List.mem_dedup]
    exact List.mem_append_right _ ht

/-- C4 witness: the reading-phase equivalence evaluated on the concrete
well-formed file. -/
theorem C4_handle_success_iff_witness :
    (parseLines exFile initParseState).isSome = true :=
  ((C4_handle_success_iff exVocabLines [] exFile).2.1).mpr (by decide)
